import Mathlib

/-!
Verification development for the multi-GPU streaming podcast generator
(`demo/gradio_demo_multigpu.py`).

The definitions below are a shallow embedding of the scheduling and
streaming-delivery logic of the source file:

* `GPUStatus`, `memory_usage_percent`, `loadScore`, `select_best_gpu`,
  `check_gpu_health`, `handle_gpu_error` embed the `GPUStatus` dataclass and
  the `GPUManager` scheduling / fault-handling methods (source lines 39-291).
* `processAudioChunk`, `drainGo`, `finalizeSession`, `runSession` embed the
  chunk-drain loop of `VibeVoiceDemo.generate_podcast_streaming`
  (source lines 605-753): chunk accumulation in a pending buffer, the
  first-flush minimum-size rule, the 15-second interval rule for later
  flushes, the stop-signal check at the top of the loop, the end-of-stream
  flush of the pending buffer, and the terminal outcome selection.
* `firstValidationError`, `sessionTrace`, `applyTrace` embed the validation
  checks (source lines 491-509) and the resource-handling order of
  `GPUManager.generate_podcast_streaming` (source lines 321-365).
* `trimLine`, `formatStep`, `formatScriptLines` embed the script formatting
  step (source lines 540-557), with Python strings modelled as `List Char`.

Python floats are modelled as rationals (`ℚ`); wall-clock instants are
rationals passed in as data (chunk arrival times), so that every theorem
quantifies over all possible arrival timings.
-/

/-! ### Streaming drain loop (source lines 605-753) -/

/-- Sample rate used by the demo (source line 606). -/
def sample_rate : Nat := 24000

/-- `min_chunk_size = sample_rate * 30` (source line 612): the pending buffer
must hold at least this many samples before the first flush. -/
def min_chunk_size : Nat := sample_rate * 30

/-- `min_yield_interval = 15` seconds (source line 611). -/
def min_yield_interval : ℚ := 15

/-- One event yielded to the caller by the streaming generator.  `audio` is a
streaming flush (the first tuple component of a yield at source lines 675 and
686); `complete` is the complete-audio artifact (second component, lines 725
and 750); the remaining constructors are the terminal status yields. -/
inductive Event where
  | audio (samples : List Int)
  | complete (samples : List Int)
  | stopped
  | noAudio
  | notStreamed
  | emptyResult
deriving DecidableEq

/-- Mutable loop state of the drain loop (source lines 607-617):
`all_audio_chunks`, `pending_chunks`, `chunk_count`, `last_yield_time`,
`has_yielded_audio`. -/
structure DrainState where
  all_audio_chunks : List (List Int)
  pending_chunks : List (List Int)
  chunk_count : Nat
  last_yield_time : ℚ
  has_yielded_audio : Bool
deriving DecidableEq

/-- Total number of samples held in a list of chunks
(`sum(len(chunk) for chunk in ...)`, source line 652). -/
def chunksLen (l : List (List Int)) : Nat := (l.map List.length).sum

/-- One iteration of the drain loop body for a received chunk `c` arriving at
time `t` (source lines 626-679): append to `all_audio_chunks` and
`pending_chunks`, then flush iff (first flush and pending size reached
`min_chunk_size`) or (a flush already happened and pending size reached the
minimum or `min_yield_interval` elapsed since the last flush). -/
def processAudioChunk (st : DrainState) (c : List Int) (t : ℚ) :
    DrainState × List Event :=
  let pending := st.pending_chunks ++ [c]
  let allc := st.all_audio_chunks ++ [c]
  let cnt := st.chunk_count + 1
  let pendingSize := chunksLen pending
  let firstYield : Bool := !st.has_yielded_audio && decide (min_chunk_size ≤ pendingSize)
  let laterYield : Bool := st.has_yielded_audio &&
    (decide (min_chunk_size ≤ pendingSize) || decide (min_yield_interval ≤ t - st.last_yield_time))
  if (firstYield || laterYield) && !pending.isEmpty then
    (⟨allc, [], cnt, t, true⟩, [Event.audio pending.flatten])
  else
    (⟨allc, pending, cnt, st.last_yield_time, st.has_yielded_audio || firstYield⟩, [])

/-- The drain loop (source lines 620-679).  Each list element is a produced
chunk together with its arrival time.  `stopAt = some k` means the
`self.stop_generation` flag reads true from the `k`-th top-of-loop check
onward; the returned Bool records whether the loop exited via the stop-check
`break` (in which case the chunk in hand at that iteration is discarded, as
in the source). -/
def drainGo : DrainState → List (List Int × ℚ) → Option Nat →
    DrainState × List Event × Bool
  | st, [], _ => (st, [], false)
  | st, (c, t) :: rest, stopAt =>
    if stopAt = some 0 then (st, [], true)
    else
      let p := processAudioChunk st c t
      let r := drainGo p.1 rest (stopAt.map Nat.pred)
      (r.1, p.2 ++ r.2.1, r.2.2)

/-- The finalization phase after the drain loop exits (source lines 681-753):
flush any remaining pending chunks, then check the stop flag (line 705), the
received/yielded flags (lines 713-736), and produce the complete audio or an
error status. -/
def finalizeSession (st : DrainState) (stopFlag : Bool) : List Event :=
  let flushEv : List Event :=
    if st.pending_chunks.isEmpty then [] else [Event.audio st.pending_chunks.flatten]
  let hasY : Bool := st.has_yielded_audio || !st.pending_chunks.isEmpty
  let received : Bool := decide (st.chunk_count ≠ 0)
  if stopFlag then flushEv ++ [Event.stopped]
  else
    flushEv ++
      (if received && !hasY && !st.all_audio_chunks.isEmpty then
        [Event.complete st.all_audio_chunks.flatten]
      else if !received then [Event.noAudio]
      else if !hasY then [Event.notStreamed]
      else if !st.all_audio_chunks.isEmpty then
        [Event.complete st.all_audio_chunks.flatten]
      else [Event.emptyResult])

/-- A whole drain-plus-finalize session starting at time `t0` (the value of
`last_yield_time` set at source line 610).  The stop flag at the line-705
check is true exactly when the flag was raised at some iteration index
`k ≤ items.length`, i.e. before the loop finished. -/
def runSession (t0 : ℚ) (items : List (List Int × ℚ)) (stopAt : Option Nat) :
    List Event :=
  let r := drainGo ⟨[], [], 0, t0, false⟩ items stopAt
  let stopFlag : Bool :=
    match stopAt with
    | some k => decide (k ≤ items.length)
    | none => false
  r.2.1 ++ finalizeSession r.1 stopFlag

/-- The events the session yields after the drain loop's stop check has
observed the stop signal and broken out of the loop (source lines 622-624
followed by 681-707); empty when the loop never observed the signal. -/
def postStopEvents (t0 : ℚ) (items : List (List Int × ℚ)) (stopAt : Option Nat) :
    List Event :=
  let r := drainGo ⟨[], [], 0, t0, false⟩ items stopAt
  if r.2.2 then finalizeSession r.1 true else []

/-- Concatenation of all streaming-flush payloads in an event list: the total
audio delivered to the caller through the streaming output. -/
def audioConcat (evs : List Event) : List Int :=
  (evs.filterMap fun e => match e with | Event.audio a => some a | _ => none).flatten

/-- The streaming-flush events of an event list. -/
def audioEvents (evs : List Event) : List Event :=
  evs.filter fun e => match e with | Event.audio _ => true | _ => false

/-! ### Basic loop invariants -/

theorem audioConcat_append (a b : List Event) :
    audioConcat (a ++ b) = audioConcat a ++ audioConcat b := by
  simp [audioConcat]

theorem processAudioChunk_audio (st : DrainState) (c : List Int) (t : ℚ) :
    audioConcat (processAudioChunk st c t).2 ++
      (processAudioChunk st c t).1.pending_chunks.flatten
      = st.pending_chunks.flatten ++ c := by
  dsimp only [processAudioChunk]
  split
  · simp [audioConcat]
  · simp [audioConcat]

theorem processAudioChunk_all (st : DrainState) (c : List Int) (t : ℚ) :
    (processAudioChunk st c t).1.all_audio_chunks = st.all_audio_chunks ++ [c] := by
  dsimp only [processAudioChunk]
  split <;> rfl

theorem processAudioChunk_cnt (st : DrainState) (c : List Int) (t : ℚ) :
    (processAudioChunk st c t).1.chunk_count = st.chunk_count + 1 := by
  dsimp only [processAudioChunk]
  split <;> rfl

theorem drainGo_none_obs (items : List (List Int × ℚ)) (st : DrainState) :
    (drainGo st items none).2.2 = false := by
  induction items generalizing st with
  | nil => rfl
  | cons x rest ih =>
    obtain ⟨c, t⟩ := x
    simp only [drainGo, Option.map_none', reduceCtorEq, if_false]
    exact ih _

theorem drainGo_none_audio (items : List (List Int × ℚ)) (st : DrainState) :
    audioConcat (drainGo st items none).2.1 ++
      (drainGo st items none).1.pending_chunks.flatten
      = st.pending_chunks.flatten ++ (items.map Prod.fst).flatten := by
  induction items generalizing st with
  | nil => simp [drainGo, audioConcat]
  | cons x rest ih =>
    obtain ⟨c, t⟩ := x
    simp only [drainGo, Option.map_none', reduceCtorEq, if_false]
    have h1 := processAudioChunk_audio st c t
    have h2 := ih (processAudioChunk st c t).1
    simp only [List.map_cons, List.flatten_cons]
    rw [audioConcat_append, List.append_assoc, h2, ← List.append_assoc, h1,
      List.append_assoc]

theorem drainGo_none_all (items : List (List Int × ℚ)) (st : DrainState) :
    (drainGo st items none).1.all_audio_chunks
      = st.all_audio_chunks ++ items.map Prod.fst := by
  induction items generalizing st with
  | nil => simp [drainGo]
  | cons x rest ih =>
    obtain ⟨c, t⟩ := x
    simp only [drainGo, Option.map_none', reduceCtorEq, if_false]
    rw [ih, processAudioChunk_all]
    simp

theorem drainGo_none_cnt (items : List (List Int × ℚ)) (st : DrainState) :
    (drainGo st items none).1.chunk_count = st.chunk_count + items.length := by
  induction items generalizing st with
  | nil => simp [drainGo]
  | cons x rest ih =>
    obtain ⟨c, t⟩ := x
    simp only [drainGo, Option.map_none', reduceCtorEq, if_false]
    rw [ih, processAudioChunk_cnt]
    simp only [List.length_cons]
    omega

theorem processAudioChunk_events (st : DrainState) (c : List Int) (t : ℚ) :
    ∀ e ∈ (processAudioChunk st c t).2, ∃ a, e = Event.audio a := by
  dsimp only [processAudioChunk]
  split
  · intro e he
    simp only [List.mem_singleton] at he
    exact ⟨_, he⟩
  · intro e he
    simp at he

theorem drainGo_events_audio :
    ∀ (items : List (List Int × ℚ)) (st : DrainState) (stopAt : Option Nat),
      ∀ e ∈ (drainGo st items stopAt).2.1, ∃ a, e = Event.audio a
  | [], st, stopAt => by simp [drainGo]
  | (c, t) :: rest, st, stopAt => by
    by_cases h : stopAt = some 0
    · simp [drainGo, h]
    · intro e he
      simp only [drainGo, if_neg h] at he
      rcases List.mem_append.mp he with h1 | h1
      · exact processAudioChunk_events st c t e h1
      · exact drainGo_events_audio rest _ _ e h1

theorem drainGo_stop :
    ∀ (items : List (List Int × ℚ)) (k : Nat) (st : DrainState), k < items.length →
      drainGo st items (some k)
        = ((drainGo st (items.take k) none).1, (drainGo st (items.take k) none).2.1, true)
  | [], k, st, h => by simp at h
  | (c, t) :: rest, 0, st, h => by simp [drainGo]
  | (c, t) :: rest, k + 1, st, h => by
    have hk : k < rest.length := by simpa using h
    have ih := drainGo_stop rest k (processAudioChunk st c t).1 hk
    simp only [drainGo, Option.map_some', Nat.pred_succ, List.take_succ_cons,
      Option.some.injEq, Nat.succ_ne_zero, if_false, reduceCtorEq]
    rw [ih]
    simp

theorem audioConcat_finalize (st : DrainState) (b : Bool) :
    audioConcat (finalizeSession st b) = st.pending_chunks.flatten := by
  dsimp only [finalizeSession]
  split_ifs with h1 h2 h3 h4 h5 h6 <;>
    simp_all [audioConcat, List.isEmpty_iff]

theorem complete_mem_finalize (st : DrainState) (b : Bool) (a : List Int) :
    Event.complete a ∈ finalizeSession st b → a = st.all_audio_chunks.flatten := by
  dsimp only [finalizeSession]
  split_ifs <;> intro h <;> simp_all

theorem finalizeSession_true (st : DrainState) :
    finalizeSession st true
      = (if st.pending_chunks.isEmpty then ([] : List Event)
          else [Event.audio st.pending_chunks.flatten]) ++ [Event.stopped] := by
  simp [finalizeSession]

/-- Claim C1: for a session whose chunk stream ends naturally (no stop request
observed), for every partition of chunk sizes and every arrival timing, the
audio delivered to the caller across all incremental flushes plus the final
flush of the remaining pending buffer concatenates to exactly the audio of
all chunks the Worker produced — no chunk is dropped and none is delivered
twice.  Moreover the complete-audio artifact of the finalization step carries
exactly this same total audio, so the final delivery introduces no extra or
missing samples. -/
theorem spec_c1_exact_delivery (t0 : ℚ) (items : List (List Int × ℚ)) :
    audioConcat (runSession t0 items none) = (items.map Prod.fst).flatten ∧
    ∀ a, Event.complete a ∈ runSession t0 items none →
      a = (items.map Prod.fst).flatten := by
  constructor
  · unfold runSession
    dsimp only
    rw [audioConcat_append, audioConcat_finalize]
    have h := drainGo_none_audio items ⟨[], [], 0, t0, false⟩
    simpa using h
  · intro a ha
    unfold runSession at ha
    dsimp only at ha
    rcases List.mem_append.mp ha with h | h
    · rcases drainGo_events_audio items ⟨[], [], 0, t0, false⟩ none _ h with ⟨b, hb⟩
      exact absurd hb (by simp)
    · have h2 := complete_mem_finalize _ _ _ h
      rw [h2, drainGo_none_all]
      simp

theorem spec_c1_exact_delivery_witness :
    audioConcat (runSession 0 [([1, 2], 0)] none) = [1, 2] :=
  (spec_c1_exact_delivery 0 [([1, 2], 0)]).1

/-- Claim C7: a session that runs to completion with no stop request and in
which the Worker produces zero chunks yields exactly the `noAudio` error
event (source lines 728-731) — in particular it never reports success. -/
theorem spec_c7_no_audio_produced (t0 : ℚ) :
    runSession t0 [] none = [Event.noAudio] := rfl

/-- Claim C4 counterexample: the claim asserts that after the drain loop
observes the stop signal no further chunk (audio) events are delivered to the
caller.  In the code, after the stop-check `break` (source lines 622-624),
the remaining pending buffer is still flushed to the caller (source lines
681-687) before the stopped status is yielded (source lines 705-707).
Concretely: two one-sample chunks, stop observed at the second top-of-loop
check — the post-observation events are a flush of the buffered chunk
followed by the stopped status, i.e. an audio event is delivered after the
stop signal was observed. -/
theorem spec_c4_counterexample :
    postStopEvents 0 [([1], 0), ([2], 1)] (some 1)
      = [Event.audio [1], Event.stopped] := by decide

/-- Claim C4 (amended): if the stop signal is observed at iteration `k` of
the drain loop (mid-stream, `k < items.length`), the session terminates with
the `stopped` status as its last event, every event before it is an audio
flush, the total audio delivered is exactly the chunks received before the
stop (later chunks are never delivered), and after the stop is observed at
most one further audio event — a single flush of audio already buffered
before the stop — is delivered.  (The original claim's real-time bound of one
grace period plus one join timeout concerns thread-join wall-clock behaviour
and is outside this event-level model.) -/
theorem spec_c4_stop_amended (t0 : ℚ) (items : List (List Int × ℚ)) (k : Nat)
    (h : k < items.length) :
    (∃ pre, runSession t0 items (some k) = pre ++ [Event.stopped] ∧
        ∀ e ∈ pre, ∃ a, e = Event.audio a) ∧
    audioConcat (runSession t0 items (some k))
      = ((items.take k).map Prod.fst).flatten ∧
    (audioEvents (postStopEvents t0 items (some k))).length ≤ 1 := by
  have hstop := drainGo_stop items k ⟨[], [], 0, t0, false⟩ h
  have hflag : (decide (k ≤ items.length)) = true := by
    simp [Nat.le_of_lt h]
  have hrun : runSession t0 items (some k)
      = (drainGo ⟨[], [], 0, t0, false⟩ (items.take k) none).2.1 ++
        finalizeSession (drainGo ⟨[], [], 0, t0, false⟩ (items.take k) none).1 true := by
    unfold runSession
    rw [hstop]
    simp [hflag]
  refine ⟨?_, ?_, ?_⟩
  · refine ⟨(drainGo ⟨[], [], 0, t0, false⟩ (items.take k) none).2.1 ++
      (if (drainGo ⟨[], [], 0, t0, false⟩ (items.take k) none).1.pending_chunks.isEmpty
        then ([] : List Event)
        else [Event.audio
          (drainGo ⟨[], [], 0, t0, false⟩ (items.take k) none).1.pending_chunks.flatten]),
      ?_, ?_⟩
    · rw [hrun, finalizeSession_true]
      simp
    · intro e he
      rcases List.mem_append.mp he with h1 | h1
      · exact drainGo_events_audio _ _ _ e h1
      · split at h1
        · simp at h1
        · simp only [List.mem_singleton] at h1
          exact ⟨_, h1⟩
  · rw [hrun, audioConcat_append, audioConcat_finalize]
    have h2 := drainGo_none_audio (items.take k) ⟨[], [], 0, t0, false⟩
    simpa using h2
  · unfold postStopEvents
    rw [hstop]
    simp only [if_true]
    rw [finalizeSession_true]
    unfold audioEvents
    rw [List.filter_append]
    split <;> simp

theorem spec_c4_stop_amended_witness :
    audioConcat (runSession 0 [([1], 0), ([2], 1)] (some 1)) = [1] :=
  (spec_c4_stop_amended 0 [([1], 0), ([2], 1)] 1 (by decide)).2.1

/-! ### GPU status registry and scheduler (source lines 39-291) -/

/-- The `GPUStatus` dataclass (source lines 39-49).  Memory figures in GB and
the utilization percentage are Python floats, modelled as rationals. -/
structure GPUStatus where
  gpu_id : Nat
  device_name : String
  memory_used : ℚ
  memory_total : ℚ
  utilization : ℚ
  queue_length : Nat
  is_available : Bool
  last_updated : ℚ
deriving DecidableEq

/-- `GPUStatus.memory_usage_percent` (source lines 55-57):
`(memory_used / memory_total) * 100 if memory_total > 0 else 0`. -/
def memory_usage_percent (s : GPUStatus) : ℚ :=
  if 0 < s.memory_total then s.memory_used / s.memory_total * 100 else 0

/-- The load score computed by `select_best_gpu` (source lines 228-232):
`queue_length * 10 + memory_usage_percent * 0.5 + utilization * 0.3`. -/
def loadScore (s : GPUStatus) : ℚ :=
  (s.queue_length : ℚ) * 10 + memory_usage_percent s * (5 / 10) +
    s.utilization * (3 / 10)

/-- The scoring loop of `select_best_gpu` (source lines 221-236): scan the
available devices in registry order, keeping the first device whose score is
strictly lower than the best seen so far (initial best score is infinity, so
the first device always replaces the empty accumulator). -/
def scanBest : List GPUStatus → Option (Nat × ℚ) → Option (Nat × ℚ)
  | [], best => best
  | s :: rest, none => scanBest rest (some (s.gpu_id, loadScore s))
  | s :: rest, some (b, bs) =>
    if loadScore s < bs then scanBest rest (some (s.gpu_id, loadScore s))
    else scanBest rest (some (b, bs))

/-- The result of the scoring loop plus the fallback
`best_gpu if best_gpu is not None else available_gpus[0]` (source line 238). -/
def pickBest (avail : List GPUStatus) : Option Nat :=
  match scanBest avail none with
  | some (b, _) => some b
  | none => avail.head?.map GPUStatus.gpu_id

/-- `GPUManager._check_gpu_health` (source lines 240-260): every device that
has a demo instance is re-probed and its availability set to the probe
outcome; devices without an instance are left untouched. -/
def check_gpu_health (probe : Nat → Bool) (instances : List Nat)
    (reg : List GPUStatus) : List GPUStatus :=
  reg.map fun s =>
    if instances.contains s.gpu_id then { s with is_available := probe s.gpu_id } else s

/-- `GPUManager.select_best_gpu` (source lines 202-238): filter to available
devices; if none, run one health re-probe and filter again (still none means
the RuntimeError at line 218, modelled as `none`); then pick the best score. -/
def select_best_gpu (probe : Nat → Bool) (instances : List Nat)
    (reg : List GPUStatus) : Option Nat :=
  let avail := reg.filter fun s => s.is_available
  if avail.isEmpty then
    let avail2 := (check_gpu_health probe instances reg).filter fun s => s.is_available
    if avail2.isEmpty then none else pickBest avail2
  else pickBest avail

/-- `GPUManager._handle_gpu_error` (source lines 262-291): mark the device
unavailable and start exactly one background recovery thread (30-second delay
then a single health re-probe).  The second component is the list of
scheduled recovery attempts — the source starts exactly one thread. -/
def handle_gpu_error (id : Nat) (reg : List GPUStatus) :
    List GPUStatus × List Nat :=
  (reg.map fun s => if s.gpu_id = id then { s with is_available := false } else s, [id])

/-! ### Scheduler lemmas -/

theorem scanBest_spec :
    ∀ (l : List GPUStatus) (b : Nat) (bs : ℚ),
      (∃ l1 s l2, l = l1 ++ s :: l2 ∧
        scanBest l (some (b, bs)) = some (s.gpu_id, loadScore s) ∧
        loadScore s < bs ∧ (∀ x ∈ l1, loadScore s < loadScore x) ∧
        (∀ x ∈ l2, loadScore s ≤ loadScore x)) ∨
      (scanBest l (some (b, bs)) = some (b, bs) ∧ ∀ x ∈ l, bs ≤ loadScore x)
  | [], b, bs => by
    right
    simp [scanBest]
  | s :: rest, b, bs => by
    by_cases hlt : loadScore s < bs
    · left
      have h := scanBest_spec rest s.gpu_id (loadScore s)
      rcases h with ⟨l1, s', l2, hsplit, hres, hlt', hl1, hl2⟩ | ⟨hres, hall⟩
      · refine ⟨s :: l1, s', l2, by rw [hsplit]; simp, ?_, lt_trans hlt' hlt, ?_, hl2⟩
        · simp only [scanBest, if_pos hlt]
          exact hres
        · intro x hx
          rcases List.mem_cons.mp hx with h | h
          · exact h ▸ hlt'
          · exact hl1 x h
      · refine ⟨[], s, rest, rfl, ?_, hlt, by simp, hall⟩
        simp only [scanBest, if_pos hlt]
        exact hres
    · have h := scanBest_spec rest b bs
      rcases h with ⟨l1, s', l2, hsplit, hres, hlt', hl1, hl2⟩ | ⟨hres, hall⟩
      · left
        refine ⟨s :: l1, s', l2, by rw [hsplit]; simp, ?_, hlt', ?_, hl2⟩
        · simp only [scanBest, if_neg hlt]
          exact hres
        · intro x hx
          rcases List.mem_cons.mp hx with h | h
          · exact h ▸ (lt_of_lt_of_le hlt' (le_of_not_lt hlt))
          · exact hl1 x h
      · right
        refine ⟨?_, ?_⟩
        · simp only [scanBest, if_neg hlt]
          exact hres
        · intro x hx
          rcases List.mem_cons.mp hx with h | h
          · exact h ▸ le_of_not_lt hlt
          · exact hall x h

theorem pickBest_first_min (a : GPUStatus) (rest : List GPUStatus) :
    ∃ l1 s l2, a :: rest = l1 ++ s :: l2 ∧
      pickBest (a :: rest) = some s.gpu_id ∧
      (∀ x ∈ l1, loadScore s < loadScore x) ∧
      (∀ x ∈ l2, loadScore s ≤ loadScore x) := by
  have h := scanBest_spec rest a.gpu_id (loadScore a)
  rcases h with ⟨l1, s', l2, hsplit, hres, hlt, hl1, hl2⟩ | ⟨hres, hall⟩
  · refine ⟨a :: l1, s', l2, by rw [hsplit]; simp, ?_, ?_, hl2⟩
    · unfold pickBest
      simp only [scanBest, hres]
    · intro x hx
      rcases List.mem_cons.mp hx with h | h
      · exact h ▸ hlt
      · exact hl1 x h
  · refine ⟨[], a, rest, rfl, ?_, by simp, hall⟩
    unfold pickBest
    simp only [scanBest, hres]

/-- Helper building a concrete available `GPUStatus` for concrete checks. -/
def mkStatus (id : Nat) (used total util : ℚ) (q : Nat) : GPUStatus :=
  ⟨id, "GPU", used, total, util, q, true, 0⟩

/-- Claim C3 counterexample: the claim asserts that among devices with equal
minimal score `selectBest` returns the one with the lowest device id.  The
source iterates `self.gpu_status` in dict-insertion order and keeps the first
strict minimum, and insertion order follows the user-supplied `--gpus` list
(source lines 88-105), which need not be ascending.  With the registry
inserted in order [device 1, device 0] and both devices tied, the code
returns device 1, not the lowest id 0. -/
theorem spec_c3_counterexample :
    loadScore (mkStatus 1 8 16 10 0) = loadScore (mkStatus 0 8 16 10 0) ∧
    (mkStatus 0 8 16 10 0).gpu_id < (mkStatus 1 8 16 10 0).gpu_id ∧
    select_best_gpu (fun _ => true) []
      [mkStatus 1 8 16 10 0, mkStatus 0 8 16 10 0] = some 1 := by
  refine ⟨by norm_num [loadScore, memory_usage_percent, mkStatus], by decide, ?_⟩
  norm_num [select_best_gpu, check_gpu_health, pickBest, scanBest,
    loadScore, memory_usage_percent, mkStatus]

/-- Claim C3 (amended): for every registry with at least one available
device, `select_best_gpu` returns an available device of minimal score, and
among devices of equal minimal score it returns the first one in registry
(dict-insertion) order — every available device listed earlier has a strictly
greater score and every one listed later has a greater-or-equal score.  This
coincides with the lowest device id exactly when the registry is listed in
ascending id order (the default when no `--gpus` list is given). -/
theorem spec_c3_select_amended (probe : Nat → Bool) (instances : List Nat)
    (reg : List GPUStatus)
    (h : (reg.filter fun s => s.is_available) ≠ []) :
    ∃ l1 s l2, (reg.filter fun s => s.is_available) = l1 ++ s :: l2 ∧
      select_best_gpu probe instances reg = some s.gpu_id ∧
      (∀ x ∈ l1, loadScore s < loadScore x) ∧
      (∀ x ∈ l2, loadScore s ≤ loadScore x) := by
  cases havail : (reg.filter fun s => s.is_available) with
  | nil => exact absurd havail h
  | cons a rest =>
    have hsel : select_best_gpu probe instances reg = pickBest (a :: rest) := by
      unfold select_best_gpu
      rw [havail]
      simp
    obtain ⟨l1, s, l2, hsplit, hpick, hl1, hl2⟩ := pickBest_first_min a rest
    exact ⟨l1, s, l2, hsplit, by rw [hsel, hpick], hl1, hl2⟩

theorem spec_c3_select_amended_witness :
    select_best_gpu (fun _ => true) []
      [mkStatus 0 10 100 0 0, mkStatus 1 4 100 0 0, mkStatus 2 18 100 0 0]
      = some 1 ∧
    ∃ l1 s l2,
      (([mkStatus 0 10 100 0 0, mkStatus 1 4 100 0 0, mkStatus 2 18 100 0 0] :
          List GPUStatus).filter fun s => s.is_available) = l1 ++ s :: l2 ∧
      select_best_gpu (fun _ => true) []
        [mkStatus 0 10 100 0 0, mkStatus 1 4 100 0 0, mkStatus 2 18 100 0 0]
        = some s.gpu_id ∧
      (∀ x ∈ l1, loadScore s < loadScore x) ∧
      (∀ x ∈ l2, loadScore s ≤ loadScore x) :=
  ⟨by norm_num [select_best_gpu, check_gpu_health, pickBest, scanBest,
      loadScore, memory_usage_percent, mkStatus],
    spec_c3_select_amended (fun _ => true) []
      [mkStatus 0 10 100 0 0, mkStatus 1 4 100 0 0, mkStatus 2 18 100 0 0]
      (by decide)⟩

theorem pickBest_mem (l : List GPUStatus) (b : Nat) :
    pickBest l = some b → ∃ s ∈ l, s.gpu_id = b := by
  cases l with
  | nil =>
    intro h
    simp [pickBest, scanBest] at h
  | cons a rest =>
    intro h
    obtain ⟨l1, s, l2, hsplit, hpick, h1, h2⟩ := pickBest_first_min a rest
    rw [hpick] at h
    refine ⟨s, ?_, Option.some.inj h⟩
    rw [hsplit]
    exact List.mem_append.mpr (Or.inr (List.mem_cons_self s l2))

theorem select_mem (probe : Nat → Bool) (instances : List Nat)
    (reg : List GPUStatus) (b : Nat) :
    select_best_gpu probe instances reg = some b →
    (∃ s ∈ reg.filter (fun s => s.is_available), s.gpu_id = b) ∨
    (∃ s ∈ (check_gpu_health probe instances reg).filter
        (fun s => s.is_available), s.gpu_id = b) := by
  intro h
  dsimp only [select_best_gpu] at h
  split_ifs at h with h1 h2
  · exact Or.inr (pickBest_mem _ b h)
  · exact Or.inl (pickBest_mem _ b h)

theorem marked_unavailable (id : Nat) (reg : List GPUStatus) (s : GPUStatus)
    (hs : s ∈ (handle_gpu_error id reg).1) (hid : s.gpu_id = id) :
    s.is_available = false := by
  unfold handle_gpu_error at hs
  simp only [List.mem_map] at hs
  obtain ⟨s0, hs0, rfl⟩ := hs
  by_cases h : s0.gpu_id = id
  · rw [if_pos h]
  · rw [if_neg h] at hid ⊢
    exact absurd hid h

theorem health_marked_unavailable (id : Nat) (reg : List GPUStatus)
    (probe : Nat → Bool) (instances : List Nat) (hp : probe id = false)
    (s : GPUStatus)
    (hs : s ∈ check_gpu_health probe instances (handle_gpu_error id reg).1)
    (hid : s.gpu_id = id) : s.is_available = false := by
  unfold check_gpu_health at hs
  simp only [List.mem_map] at hs
  obtain ⟨s1, hs1, rfl⟩ := hs
  by_cases h : instances.contains s1.gpu_id
  · rw [if_pos h] at hid ⊢
    simp only at hid ⊢
    rw [hid, hp]
  · rw [if_neg h] at hid ⊢
    exact marked_unavailable id reg s1 hs1 hid

/-- Claim C8: after `_handle_gpu_error` handles a Worker fault for a device,
that device is marked unavailable and — as long as no health re-probe for it
succeeds — is never returned by `select_best_gpu` (not even through the
scheduler's own no-device re-probe path); and the fault handler schedules
exactly one delayed recovery attempt (the single `recover_gpu` thread of
source lines 278-291, a one-shot 30-second-delayed retry, not a loop). -/
theorem spec_c8_fault_exclusion (id : Nat) (reg : List GPUStatus)
    (probe : Nat → Bool) (instances : List Nat) (h : probe id = false) :
    (handle_gpu_error id reg).2 = [id] ∧
    select_best_gpu probe instances (handle_gpu_error id reg).1 ≠ some id := by
  refine ⟨rfl, ?_⟩
  intro hsel
  rcases select_mem probe instances (handle_gpu_error id reg).1 id hsel with
    ⟨s, hs, hid⟩ | ⟨s, hs, hid⟩
  · have hav := (List.mem_filter.mp hs).2
    have hun := marked_unavailable id reg s (List.mem_filter.mp hs).1 hid
    simp_all
  · have hav := (List.mem_filter.mp hs).2
    have hun := health_marked_unavailable id reg probe instances h s
      (List.mem_filter.mp hs).1 hid
    simp_all

theorem spec_c8_fault_exclusion_witness :
    (handle_gpu_error 0 [mkStatus 0 0 16 0 0]).2 = [0] ∧
    select_best_gpu (fun _ => false) [0]
      (handle_gpu_error 0 [mkStatus 0 0 16 0 0]).1 ≠ some 0 :=
  spec_c8_fault_exclusion 0 [mkStatus 0 0 16 0 0] (fun _ => false) [0] rfl

/-- Claim C9: for every `GPUStatus` whose memory figures are physically
meaningful (`0 ≤ memory_used ≤ memory_total`, which is what the CUDA readings
at source lines 163-175 provide), the derived usage percentage lies in
[0, 100]; and whenever the total memory is 0 the percentage is 0
(unconditionally, by the `else` branch at source line 57). -/
theorem spec_c9_usage_percent_bounds (s : GPUStatus)
    (h0 : 0 ≤ s.memory_used) (h1 : s.memory_used ≤ s.memory_total) :
    (0 ≤ memory_usage_percent s ∧ memory_usage_percent s ≤ 100) ∧
    (s.memory_total = 0 → memory_usage_percent s = 0) := by
  unfold memory_usage_percent
  by_cases ht : 0 < s.memory_total
  · rw [if_pos ht]
    refine ⟨⟨?_, ?_⟩, ?_⟩
    · exact mul_nonneg (div_nonneg h0 (le_of_lt ht)) (by norm_num)
    · have hd : s.memory_used / s.memory_total ≤ 1 := (div_le_one ht).mpr h1
      calc s.memory_used / s.memory_total * 100 ≤ 1 * 100 :=
            mul_le_mul_of_nonneg_right hd (by norm_num)
        _ = 100 := by norm_num
    · intro hz
      rw [hz] at ht
      exact absurd ht (lt_irrefl 0)
  · rw [if_neg ht]
    exact ⟨⟨le_refl 0, by norm_num⟩, fun _ => rfl⟩

theorem spec_c9_usage_percent_bounds_witness :
    (0 ≤ memory_usage_percent (mkStatus 3 2 8 0 0) ∧
      memory_usage_percent (mkStatus 3 2 8 0 0) ≤ 100) ∧
    ((mkStatus 3 2 8 0 0).memory_total = 0 →
      memory_usage_percent (mkStatus 3 2 8 0 0) = 0) :=
  spec_c9_usage_percent_bounds (mkStatus 3 2 8 0 0) (by decide) (by decide)

/-! ### Request validation and session resource trace (source lines 321-365
and 484-509) -/

/-- A Python string modelled as its list of characters. -/
abbrev Line := List Char

/-- Python `str.strip()`: drop whitespace from both ends. -/
def trimLine (l : Line) : Line :=
  ((l.dropWhile Char.isWhitespace).reverse.dropWhile Char.isWhitespace).reverse

/-- A generation request as received by
`VibeVoiceDemo.generate_podcast_streaming`: the script text, the
`num_speakers` slider value, the four speaker dropdown slots (a `none` slot
models Python `None`), and the names of the available voice presets. -/
structure Request where
  script : Line
  num_speakers : Nat
  speakers : List (Option String)
  voices : List String

/-- The validation errors raised at source lines 493, 500 and 509. -/
inductive VError where
  | emptyScript
  | badSpeakerCount
  | badSpeaker (idx : Nat)
deriving DecidableEq

/-- One speaker slot check (source line 507):
`if not speaker or speaker not in self.available_voices` — a slot fails when
it is `None`, the empty string (falsy), or not a known voice name. -/
def speakerInvalid (voices : List String) : Option String → Bool
  | none => true
  | some s => s = "" || !(voices.contains s)

/-- The validation sequence of source lines 491-509, returning the first
failure: empty (stripped) script, then speaker count outside [1, 4], then the
first invalid slot among the first `num_speakers` slots. -/
def firstValidationError (r : Request) : Option VError :=
  if trimLine r.script = [] then some VError.emptyScript
  else if r.num_speakers < 1 || 4 < r.num_speakers then some VError.badSpeakerCount
  else ((r.speakers.take r.num_speakers).findIdx?
          (speakerInvalid r.voices)).map VError.badSpeaker

/-- How the streaming part of a session ends, once validation has passed. -/
inductive StreamOutcome where
  | done
  | stopped
  | workerFault
deriving DecidableEq

/-- One observable resource-or-control action of
`GPUManager.generate_podcast_streaming` (source lines 321-365). -/
inductive SessionOp where
  | selectDev (id : Nat)
  | enqueue (id : Nat)
  | validationFail
  | streamRun (oc : StreamOutcome)
  | dequeue (id : Nat)
deriving DecidableEq

/-- The ordered actions of one session served by device `dev`, as the code
executes them: `select_best_gpu` (line 327), `put(1)` on the device queue
under its lock (lines 332-333), then the inner generator body — which runs
validation first (lines 491-509) and only streams when validation passes —
and finally the `get_nowait()` release in the `finally` block (lines
358-365), reached on every exit path. -/
def sessionTrace (r : Request) (dev : Nat) (oc : StreamOutcome) :
    List SessionOp :=
  [SessionOp.selectDev dev, SessionOp.enqueue dev] ++
    (match firstValidationError r with
      | some _ => [SessionOp.validationFail]
      | none => [SessionOp.streamRun oc]) ++
    [SessionOp.dequeue dev]

/-- Effect of one session action on device `id`'s pending-work counter
(`queue.put(1)` and the guarded `queue.get_nowait()` that removes one item
when the queue is non-empty, source lines 333 and 361-365). -/
def applyOp (id : Nat) (q : Nat) : SessionOp → Nat
  | SessionOp.enqueue j => if j = id then q + 1 else q
  | SessionOp.dequeue j => if j = id then (if 0 < q then q - 1 else q) else q
  | _ => q

/-- Pending-work counter of device `id` after running a list of session
actions from initial value `q`. -/
def applyTrace (id : Nat) (q : Nat) (ops : List SessionOp) : Nat :=
  ops.foldl (applyOp id) q

theorem applyTrace_sessionTrace (r : Request) (dev : Nat) (oc : StreamOutcome)
    (q : Nat) (id : Nat) : applyTrace id q (sessionTrace r dev oc) = q := by
  unfold sessionTrace
  cases hv : firstValidationError r <;>
    · by_cases h : dev = id <;>
        simp [applyTrace, applyOp, List.count_cons, h, List.count_nil]

/-- Claim C2: whatever terminal state a session reaches — normal completion,
user stop, a Worker fault, or a validation failure — its trace performs
exactly one enqueue and exactly one dequeue on the serving device, and every
device's pending-work counter returns to its pre-session value (the
`finally` block guarantees the release on all exit paths). -/
theorem spec_c2_counter_balance (r : Request) (dev : Nat) (oc : StreamOutcome)
    (q : Nat) (id : Nat) :
    applyTrace id q (sessionTrace r dev oc) = q ∧
    (sessionTrace r dev oc).count (SessionOp.enqueue dev) = 1 ∧
    (sessionTrace r dev oc).count (SessionOp.dequeue dev) = 1 := by
  refine ⟨applyTrace_sessionTrace r dev oc q id, ?_⟩
  unfold sessionTrace
  cases hv : firstValidationError r <;> simp [List.count_cons]

/-- Claim C6 counterexample: the claim asserts that on a validation failure
no device is selected and no pending-work counter is incremented before the
failure.  In the code, `GPUManager.generate_podcast_streaming` selects a GPU
(line 327) and enqueues the work unit (lines 332-333) before the inner
generator body — and hence validation (lines 491-509) — ever runs.  For the
concrete invalid request with an empty script, the session trace shows
`selectDev` and `enqueue` strictly before `validationFail`. -/
theorem spec_c6_counterexample :
    sessionTrace ⟨"".toList, 2, [some "Alice", some "Bob", none, none],
        ["Alice", "Bob"]⟩ 0 StreamOutcome.done
      = [SessionOp.selectDev 0, SessionOp.enqueue 0, SessionOp.validationFail,
          SessionOp.dequeue 0] := by
  decide

/-- Claim C6 (amended): every request that violates validation (empty script,
speaker count outside [1, 4], or a speaker slot that does not resolve to a
known voice) fails with a ValidationError and never streams, and the serving
device's pending-work counter returns to its pre-session value; however the
device IS selected and its pending-work counter IS incremented before the
validation failure (and released afterwards), because the wrapper enqueues
before the inner generator body runs. -/
theorem spec_c6_validation_amended (r : Request) (dev : Nat)
    (oc : StreamOutcome) (e : VError) (h : firstValidationError r = some e) :
    sessionTrace r dev oc
      = [SessionOp.selectDev dev, SessionOp.enqueue dev,
          SessionOp.validationFail, SessionOp.dequeue dev] ∧
    (∀ q id, applyTrace id q (sessionTrace r dev oc) = q) ∧
    SessionOp.streamRun oc ∉ sessionTrace r dev oc := by
  refine ⟨?_, fun q id => applyTrace_sessionTrace r dev oc q id, ?_⟩
  · unfold sessionTrace
    rw [h]
    simp
  · unfold sessionTrace
    rw [h]
    simp

theorem spec_c6_validation_amended_witness :
    sessionTrace ⟨"Hello there".toList, 5, [some "Alice", none, none, none],
        ["Alice"]⟩ 1 StreamOutcome.done
      = [SessionOp.selectDev 1, SessionOp.enqueue 1,
          SessionOp.validationFail, SessionOp.dequeue 1] ∧
    (∀ q id, applyTrace id q (sessionTrace ⟨"Hello there".toList, 5,
        [some "Alice", none, none, none], ["Alice"]⟩ 1 StreamOutcome.done) = q) ∧
    SessionOp.streamRun StreamOutcome.done
      ∉ sessionTrace ⟨"Hello there".toList, 5, [some "Alice", none, none, none],
          ["Alice"]⟩ 1 StreamOutcome.done :=
  spec_c6_validation_amended _ 1 StreamOutcome.done VError.badSpeakerCount
    (by decide)

/-! ### First-flush characterization (claim C5) -/

theorem chunksLen_append (a b : List (List Int)) :
    chunksLen (a ++ b) = chunksLen a + chunksLen b := by
  simp [chunksLen]

/-- Payload of the first streaming-flush event of an event list, if the list
starts with one. -/
def headAudio (evs : List Event) : Option (List Int) :=
  match evs.head? with
  | some (Event.audio a) => some a
  | _ => none

/-- The first flush emitted inside the drain loop of a session that is never
stopped, starting at time `t0`. -/
def firstLoopFlush (t0 : ℚ) (items : List (List Int × ℚ)) :
    Option (List Int) :=
  headAudio (drainGo ⟨[], [], 0, t0, false⟩ items none).2.1

/-- Index of the first chunk at which the accumulated sample count, starting
from `acc` samples already buffered, reaches `min_chunk_size`. -/
def firstReach (acc : Nat) : List (List Int) → Option Nat
  | [] => none
  | c :: rest =>
    if min_chunk_size ≤ acc + c.length then some 0
    else (firstReach (acc + c.length) rest).map (· + 1)

theorem processAudioChunk_yield (st : DrainState) (c : List Int) (t : ℚ)
    (hst : st.has_yielded_audio = false)
    (hsize : min_chunk_size ≤ chunksLen (st.pending_chunks ++ [c])) :
    processAudioChunk st c t
      = (⟨st.all_audio_chunks ++ [c], [], st.chunk_count + 1, t, true⟩,
          [Event.audio (st.pending_chunks ++ [c]).flatten]) := by
  dsimp only [processAudioChunk]
  split
  next h => rfl
  next h =>
    exfalso
    apply h
    simp [hst, hsize]

theorem processAudioChunk_noYield (st : DrainState) (c : List Int) (t : ℚ)
    (hst : st.has_yielded_audio = false)
    (hsize : ¬min_chunk_size ≤ chunksLen (st.pending_chunks ++ [c])) :
    processAudioChunk st c t
      = (⟨st.all_audio_chunks ++ [c], st.pending_chunks ++ [c],
            st.chunk_count + 1, st.last_yield_time, false⟩, []) := by
  dsimp only [processAudioChunk]
  split
  next h =>
    exfalso
    simp [hst, hsize] at h
  next h =>
    simp [hst, hsize]

theorem firstFlush_aux :
    ∀ (items : List (List Int × ℚ)) (st : DrainState),
      st.has_yielded_audio = false →
      headAudio (drainGo st items none).2.1
        = (firstReach (chunksLen st.pending_chunks) (items.map Prod.fst)).map
            (fun i =>
              (st.pending_chunks ++ (items.map Prod.fst).take (i + 1)).flatten)
  | [], st, hst => by simp [drainGo, headAudio, firstReach]
  | (c, t) :: rest, st, hst => by
    simp only [drainGo, Option.map_none', reduceCtorEq, if_false, List.map_cons]
    by_cases hsize : min_chunk_size ≤ chunksLen (st.pending_chunks ++ [c])
    · rw [processAudioChunk_yield st c t hst hsize]
      have hsize2 : min_chunk_size ≤ chunksLen st.pending_chunks + c.length := by
        rw [chunksLen_append] at hsize
        simpa [chunksLen] using hsize
      simp [headAudio, firstReach, hsize2]
    · rw [processAudioChunk_noYield st c t hst hsize]
      have hsize2 : ¬min_chunk_size ≤ chunksLen st.pending_chunks + c.length := by
        rw [chunksLen_append] at hsize
        simpa [chunksLen] using hsize
      have ih := firstFlush_aux rest
        ⟨st.all_audio_chunks ++ [c], st.pending_chunks ++ [c],
          st.chunk_count + 1, st.last_yield_time, false⟩ rfl
      simp only [List.nil_append]
      rw [ih]
      dsimp only
      simp only [firstReach, if_neg hsize2]
      have hcl : chunksLen (st.pending_chunks ++ [c])
          = chunksLen st.pending_chunks + c.length := by
        simp [chunksLen]
      rw [hcl]
      cases firstReach (chunksLen st.pending_chunks + c.length)
          (rest.map Prod.fst) with
      | none => simp
      | some i =>
        simp [List.take_succ_cons, List.append_assoc, List.singleton_append]

/-- Claim C5: for every chunk stream and every arrival timing, the first
flush emitted inside the drain loop happens exactly at the first chunk at
which the pending buffer holds at least `min_chunk_size` samples (30 seconds
at the 24000 Hz sample rate), carries precisely all chunks up to and
including that one, and never happens earlier; since the equation holds for
every timing, elapsed time alone never triggers the first flush (the
interval rule at source line 662 only applies once `has_yielded_audio` is
true).  When the threshold is never reached no in-loop flush happens at all
(the buffered audio is then delivered by the end-of-stream delivery, outside
the loop). -/
theorem spec_c5_first_flush (t0 : ℚ) (items : List (List Int × ℚ)) :
    firstLoopFlush t0 items
      = (firstReach 0 (items.map Prod.fst)).map
          (fun i => ((items.map Prod.fst).take (i + 1)).flatten) := by
  have h := firstFlush_aux items ⟨[], [], 0, t0, false⟩ rfl
  simpa [firstLoopFlush, chunksLen] using h

/-! ### Script formatting (source lines 540-557, claim C10) -/

/-- The `"Speaker "` marker used both to recognise already-formatted lines
(source line 550) and to build auto-assigned prefixes (line 555). -/
def speakerTag : Line := "Speaker ".toList

/-- `line.startswith('Speaker ') and ':' in line` (source line 550). -/
def hasSpeakerFormat (l : Line) : Bool :=
  speakerTag.isPrefixOf l && l.contains ':'

/-- `f"Speaker {speaker_id}: {line}"` with
`speaker_id = len(formatted_script_lines) % num_speakers` (source lines
554-555). -/
def formatLine (n : Nat) (cnt : Nat) (l : Line) : Line :=
  speakerTag ++ (Nat.repr (cnt % n)).toList ++ ": ".toList ++ l

/-- One iteration of the formatting loop (source lines 544-555): strip the
line, skip it when blank, keep it unchanged when already speaker-formatted,
otherwise auto-assign a rotating speaker id. -/
def formatStep (n : Nat) (acc : List Line) (raw : Line) : List Line :=
  let l := trimLine raw
  if l = [] then acc
  else if hasSpeakerFormat l then acc ++ [l]
  else acc ++ [formatLine n acc.length l]

/-- The whole formatting pass over the script's lines (source lines 541-557,
after `script.strip().split('\n')`). -/
def formatScriptLines (n : Nat) (ls : List Line) : List Line :=
  ls.foldl (formatStep n) []

theorem formatStep_blank (n : Nat) (acc : List Line) (raw : Line)
    (h1 : trimLine raw = []) : formatStep n acc raw = acc := by
  unfold formatStep
  rw [if_pos h1]

theorem formatStep_keep (n : Nat) (acc : List Line) (raw : Line)
    (h1 : trimLine raw ≠ []) (h2 : hasSpeakerFormat (trimLine raw) = true) :
    formatStep n acc raw = acc ++ [trimLine raw] := by
  unfold formatStep
  rw [if_neg h1, if_pos h2]

theorem formatStep_auto (n : Nat) (acc : List Line) (raw : Line)
    (h1 : trimLine raw ≠ []) (h2 : hasSpeakerFormat (trimLine raw) = false) :
    formatStep n acc raw = acc ++ [formatLine n acc.length (trimLine raw)] := by
  unfold formatStep
  rw [if_neg h1, if_neg (by simp [h2])]

theorem formatStep_shape (n : Nat) (acc : List Line) (raw : Line) :
    ∃ u, formatStep n acc raw = acc ++ u := by
  by_cases h1 : trimLine raw = []
  · exact ⟨[], by rw [formatStep_blank n acc raw h1]; simp⟩
  · by_cases h2 : hasSpeakerFormat (trimLine raw) = true
    · exact ⟨[trimLine raw], formatStep_keep n acc raw h1 h2⟩
    · exact ⟨[formatLine n acc.length (trimLine raw)],
        formatStep_auto n acc raw h1 (by simpa using h2)⟩

theorem foldl_formatStep_shape (n : Nat) :
    ∀ (ls : List Line) (acc : List Line),
      ∃ u, ls.foldl (formatStep n) acc = acc ++ u
  | [], acc => ⟨[], by simp⟩
  | raw :: rest, acc => by
    obtain ⟨u1, h1⟩ := formatStep_shape n acc raw
    obtain ⟨u2, h2⟩ := foldl_formatStep_shape n rest (formatStep n acc raw)
    exact ⟨u1 ++ u2, by rw [List.foldl_cons, h2, h1, List.append_assoc]⟩

theorem foldl_formatStep_mem_mono (n : Nat) (ls : List Line)
    (acc : List Line) (x : Line) (hx : x ∈ acc) :
    x ∈ ls.foldl (formatStep n) acc := by
  obtain ⟨u, hu⟩ := foldl_formatStep_shape n ls acc
  rw [hu]
  exact List.mem_append.mpr (Or.inl hx)

theorem formatStep_length (n : Nat) (acc : List Line) (raw : Line) :
    (formatStep n acc raw).length
      = acc.length + (if trimLine raw = [] then 0 else 1) := by
  by_cases h1 : trimLine raw = []
  · rw [formatStep_blank n acc raw h1, if_pos h1]
    simp
  · by_cases h2 : hasSpeakerFormat (trimLine raw) = true
    · rw [formatStep_keep n acc raw h1 h2, if_neg h1]
      simp
    · rw [formatStep_auto n acc raw h1 (by simpa using h2), if_neg h1]
      simp

theorem foldl_formatStep_length (n : Nat) :
    ∀ (ls : List Line) (acc : List Line),
      (ls.foldl (formatStep n) acc).length
        = acc.length + (ls.countP fun l => !(trimLine l).isEmpty)
  | [], acc => by simp
  | raw :: rest, acc => by
    rw [List.foldl_cons, foldl_formatStep_length n rest, formatStep_length,
      List.countP_cons]
    by_cases h : trimLine raw = []
    · simp [h]
    · simp [h]
      omega

theorem foldl_formatStep_tagged (n : Nat) :
    ∀ (ls : List Line) (acc : List Line),
      (∀ x ∈ acc, speakerTag <+: x) →
      ∀ x ∈ ls.foldl (formatStep n) acc, speakerTag <+: x
  | [], acc, hacc => by simpa using hacc
  | raw :: rest, acc, hacc => by
    rw [List.foldl_cons]
    apply foldl_formatStep_tagged n rest
    intro x hx
    by_cases h1 : trimLine raw = []
    · rw [formatStep_blank n acc raw h1] at hx
      exact hacc x hx
    · by_cases h2 : hasSpeakerFormat (trimLine raw) = true
      · rw [formatStep_keep n acc raw h1 h2] at hx
        rcases List.mem_append.mp hx with h | h
        · exact hacc x h
        · simp only [List.mem_singleton] at h
          subst h
          have h3 : speakerTag.isPrefixOf (trimLine raw) = true :=
            ((Bool.and_eq_true _ _).mp h2).1
          exact List.isPrefixOf_iff_prefix.mp h3
      · rw [formatStep_auto n acc raw h1 (by simpa using h2)] at hx
        rcases List.mem_append.mp hx with h | h
        · exact hacc x h
        · simp only [List.mem_singleton] at h
          subst h
          have he : formatLine n acc.length (trimLine raw)
              = speakerTag ++ ((Nat.repr (acc.length % n)).toList ++
                  (": ".toList ++ trimLine raw)) := by
            simp [formatLine]
          rw [he]
          exact List.prefix_append _ _

theorem formatScript_mem_keep (n : Nat) :
    ∀ (ls : List Line) (acc : List Line) (l : Line), l ∈ ls →
      trimLine l ≠ [] → hasSpeakerFormat (trimLine l) = true →
      trimLine l ∈ ls.foldl (formatStep n) acc
  | [], acc, l, hl, _, _ => by simp at hl
  | raw :: rest, acc, l, hl, h1, h2 => by
    rw [List.foldl_cons]
    rcases List.mem_cons.mp hl with h | h
    · subst h
      apply foldl_formatStep_mem_mono
      rw [formatStep_keep n acc l h1 h2]
      exact List.mem_append.mpr (Or.inr (by simp))
    · exact formatScript_mem_keep n rest _ l h h1 h2

theorem formatScript_mem_auto (n : Nat) (hn : 0 < n) :
    ∀ (ls : List Line) (acc : List Line) (l : Line), l ∈ ls →
      trimLine l ≠ [] → hasSpeakerFormat (trimLine l) = false →
      ∃ k, k < n ∧
        speakerTag ++ (Nat.repr k).toList ++ ": ".toList ++ trimLine l
          ∈ ls.foldl (formatStep n) acc
  | [], acc, l, hl, _, _ => by simp at hl
  | raw :: rest, acc, l, hl, h1, h2 => by
    rw [List.foldl_cons]
    rcases List.mem_cons.mp hl with h | h
    · subst h
      refine ⟨acc.length % n, Nat.mod_lt _ hn, ?_⟩
      apply foldl_formatStep_mem_mono
      rw [formatStep_auto n acc l h1 h2]
      exact List.mem_append.mpr (Or.inr (by simp [formatLine]))
    · exact formatScript_mem_auto n hn rest _ l h h1 h2

/-- The stripped non-blank lines of the script, in order: exactly the lines
the formatting loop does not skip (source lines 544-547). -/
def nonBlankLines (ls : List Line) : List Line :=
  (ls.map trimLine).filter fun l => !l.isEmpty

/-- Spec-side description of the formatting output, following claim C10's
words for comparison with the source-derived `formatScriptLines`: the `j`-th
remaining (stripped, non-blank) line — `j` being the count of already
formatted lines — is kept unchanged when it already has speaker format, and
is otherwise prefixed with `"Speaker (j % num_speakers): "`. -/
def formatScriptSpec (n : Nat) : Nat → List Line → List Line
  | _, [] => []
  | j, l :: rest =>
    (if hasSpeakerFormat l then l
      else speakerTag ++ (Nat.repr (j % n)).toList ++ ": ".toList ++ l) ::
      formatScriptSpec n (j + 1) rest

theorem foldl_formatStep_spec (n : Nat) :
    ∀ (ls : List Line) (acc : List Line),
      ls.foldl (formatStep n) acc
        = acc ++ formatScriptSpec n acc.length (nonBlankLines ls)
  | [], acc => by simp [nonBlankLines, formatScriptSpec]
  | raw :: rest, acc => by
    rw [List.foldl_cons]
    by_cases h1 : trimLine raw = []
    · rw [formatStep_blank n acc raw h1, foldl_formatStep_spec n rest acc]
      have hnb : nonBlankLines (raw :: rest) = nonBlankLines rest := by
        simp [nonBlankLines, h1]
      rw [hnb]
    · have hne : (trimLine raw).isEmpty = false := by
        simp [List.isEmpty_iff, h1]
      have hnb : nonBlankLines (raw :: rest)
          = trimLine raw :: nonBlankLines rest := by
        simp [nonBlankLines, hne]
      by_cases h2 : hasSpeakerFormat (trimLine raw) = true
      · rw [formatStep_keep n acc raw h1 h2,
          foldl_formatStep_spec n rest (acc ++ [trimLine raw]), hnb]
        simp [formatScriptSpec, h2, List.append_assoc]
      · rw [formatStep_auto n acc raw h1 (by simpa using h2),
          foldl_formatStep_spec n rest
            (acc ++ [formatLine n acc.length (trimLine raw)]), hnb]
        simp [formatScriptSpec, h2, formatLine, List.append_assoc]

/-- Claim C10: for every input line list and every `num_speakers ≥ 1` (the
slider range is [1, 4]), the formatting output equals the claim's
description applied to the stripped non-blank lines: blank lines are
dropped, the `j`-th remaining line is kept unchanged when it already starts
with `"Speaker "` and contains a colon, and is otherwise prefixed with
`"Speaker k: "` where `k = j % num_speakers` and `j` is the count of
already-formatted lines — so every auto-assigned id lies in
[0, num_speakers - 1].  In addition: the output has one line per non-blank
input line, every output line starts with the `"Speaker "` prefix, every
already-formatted stripped line appears in the output, and every
auto-assigned line appears with its id below `num_speakers`. -/
theorem spec_c10_script_formatting (n : Nat) (ls : List Line) (hn : 1 ≤ n) :
    formatScriptLines n ls = formatScriptSpec n 0 (nonBlankLines ls) ∧
    (formatScriptLines n ls).length
      = (ls.countP fun l => !(trimLine l).isEmpty) ∧
    (∀ x ∈ formatScriptLines n ls, speakerTag <+: x) ∧
    (∀ l ∈ ls, trimLine l ≠ [] → hasSpeakerFormat (trimLine l) = true →
      trimLine l ∈ formatScriptLines n ls) ∧
    (∀ l ∈ ls, trimLine l ≠ [] → hasSpeakerFormat (trimLine l) = false →
      ∃ k, k < n ∧
        speakerTag ++ (Nat.repr k).toList ++ ": ".toList ++ trimLine l
          ∈ formatScriptLines n ls) := by
  refine ⟨?_, ?_, ?_, ?_, ?_⟩
  · have h := foldl_formatStep_spec n ls []
    simpa [formatScriptLines] using h
  · have h := foldl_formatStep_length n ls []
    simpa [formatScriptLines] using h
  · exact foldl_formatStep_tagged n ls [] (by simp)
  · intro l hl h1 h2
    exact formatScript_mem_keep n ls [] l hl h1 h2
  · intro l hl h1 h2
    exact formatScript_mem_auto n hn ls [] l hl h1 h2

theorem spec_c10_script_formatting_witness :
    formatScriptLines 2 ["Speaker 0: hi".toList, "".toList,
        "hello world".toList]
      = formatScriptSpec 2 0 (nonBlankLines ["Speaker 0: hi".toList,
          "".toList, "hello world".toList]) ∧
    (formatScriptLines 2 ["Speaker 0: hi".toList, "".toList,
        "hello world".toList]).length
      = ([("Speaker 0: hi".toList : Line), "".toList,
          "hello world".toList].countP fun l => !(trimLine l).isEmpty) ∧
    (∀ x ∈ formatScriptLines 2 ["Speaker 0: hi".toList, "".toList,
        "hello world".toList], speakerTag <+: x) ∧
    (∀ l ∈ [("Speaker 0: hi".toList : Line), "".toList,
        "hello world".toList],
      trimLine l ≠ [] → hasSpeakerFormat (trimLine l) = true →
      trimLine l ∈ formatScriptLines 2 ["Speaker 0: hi".toList, "".toList,
        "hello world".toList]) ∧
    (∀ l ∈ [("Speaker 0: hi".toList : Line), "".toList,
        "hello world".toList],
      trimLine l ≠ [] → hasSpeakerFormat (trimLine l) = false →
      ∃ k, k < 2 ∧
        speakerTag ++ (Nat.repr k).toList ++ ": ".toList ++ trimLine l
          ∈ formatScriptLines 2 ["Speaker 0: hi".toList, "".toList,
            "hello world".toList]) :=
  spec_c10_script_formatting 2
    ["Speaker 0: hi".toList, "".toList, "hello world".toList] (by decide)
